import Mathlib

/-!
Verification of the client-side geospatial raster access and temporal
compositing toolkit of the FarmVibes.AI Sentinel/SpaceEye notebook
(`notebooks/sentinel/sentinel_spaceeye.ipynb`).

Numeric raster/CRS quantities are modelled over `ℚ`, times as integer day
numbers (`ℤ`, day-of-year 2018 where concrete dates appear).
-/

namespace FarmVibes

/-- Error taxonomy of the core (the kinds exercised by the embedded
operations: window resolution and temporal alignment). -/
inductive CoreError where
  | OutOfBounds
  | EmptyCollection
  deriving DecidableEq, Repr

/-- Pixel-to-CRS affine transform of a north-up raster: pixel column `col`
maps to `x = c + col * a`, pixel row `row` maps to `y = f + row * e`
(`a > 0` is the pixel width, `e < 0` the pixel height of a north-up grid). -/
structure Affine where
  a : ℚ
  e : ℚ
  c : ℚ
  f : ℚ
  deriving DecidableEq, Repr

/-- Axis-aligned bounding envelope of a projected geometry, in CRS units. -/
structure Envelope where
  xmin : ℚ
  xmax : ℚ
  ymin : ℚ
  ymax : ℚ
  deriving DecidableEq, Repr

/-- Axis-aligned integer pixel rectangle within a raster grid:
rows `rowStart ≤ r < rowStop`, columns `colStart ≤ c < colStop`. -/
structure PixelWindow where
  rowStart : ℤ
  rowStop : ℤ
  colStart : ℤ
  colStop : ℤ
  deriving DecidableEq, Repr

/-- Number of rows of a pixel window. -/
def PixelWindow.rows (w : PixelWindow) : ℕ := (w.rowStop - w.rowStart).toNat

/-- Number of columns of a pixel window. -/
def PixelWindow.cols (w : PixelWindow) : ℕ := (w.colStop - w.colStart).toNat

/-- Fractional pixel column of the envelope's left edge. -/
def fracColMin (env : Envelope) (t : Affine) : ℚ := (env.xmin - t.c) / t.a

/-- Fractional pixel column of the envelope's right edge. -/
def fracColMax (env : Envelope) (t : Affine) : ℚ := (env.xmax - t.c) / t.a

/-- Fractional pixel row of the envelope's top edge (the larger `y` maps to
the smaller row for a north-up transform with `e < 0`). -/
def fracRowMin (env : Envelope) (t : Affine) : ℚ := (env.ymax - t.f) / t.e

/-- Fractional pixel row of the envelope's bottom edge. -/
def fracRowMax (env : Envelope) (t : Affine) : ℚ := (env.ymin - t.f) / t.e

/-- Modelled from the spec: `resolve_window(projected_geometry,
raster_transform, raster_size)` of §4.2 (implemented by
`rasterio.mask.geometry_window`, which is not part of the sources here; the
notebook only calls it). Maps the geometry's envelope through the inverse
affine transform to fractional pixel coordinates, rounds outward (floor on
the lower bound, ceil on the upper bound), clamps to the raster's
dimensions, and fails with `OutOfBounds` when the clamped window is empty. -/
def resolve_window (env : Envelope) (t : Affine) (height width : ℕ) :
    Except CoreError PixelWindow :=
  let r0 : ℤ := max 0 ⌊fracRowMin env t⌋
  let r1 : ℤ := min (height : ℤ) ⌈fracRowMax env t⌉
  let c0 : ℤ := max 0 ⌊fracColMin env t⌋
  let c1 : ℤ := min (width : ℤ) ⌈fracColMax env t⌉
  if r0 < r1 ∧ c0 < c1 then Except.ok ⟨r0, r1, c0, c1⟩
  else Except.error CoreError.OutOfBounds

/-- CRS envelope corresponding to a pixel window under a north-up affine
transform: the images of the window's corner pixel coordinates. -/
def windowEnvelope (W : PixelWindow) (t : Affine) : Envelope where
  xmin := t.c + W.colStart * t.a
  xmax := t.c + W.colStop * t.a
  ymin := t.f + W.rowStop * t.e
  ymax := t.f + W.rowStart * t.e

/-- CRS `x` coordinate of a pixel column under an affine transform. -/
def pixelX (t : Affine) (col : ℤ) : ℚ := t.c + col * t.a

/-- CRS `y` coordinate of a pixel row under an affine transform. -/
def pixelY (t : Affine) (row : ℤ) : ℚ := t.f + row * t.e

/-- A raster reference's grid as seen by the reader: band count, dimensions,
pixel-to-CRS transform, per-pixel values and the nodata sentinel. -/
structure RasterGrid where
  bands : ℕ
  height : ℕ
  width : ℕ
  transform : Affine
  data : ℕ → ℕ → ℕ → ℚ
  nodata : ℚ

/-- Affine transform of a sub-window: same pixel scale, origin translated to
the window's upper-left corner. -/
def windowTransform (t : Affine) (w : PixelWindow) : Affine where
  a := t.a
  e := t.e
  c := t.c + w.colStart * t.a
  f := t.f + w.rowStart * t.e

/-- Modelled from the spec: `read(raster_ref, window, fill_invalid)` of §4.3
(implemented by `vibe_notebook.raster.read_raster`, which is not part of the
sources here; the notebook only calls it). Reads exactly the requested window
across all bands; when `fillInvalid` is true, nodata pixels are replaced with
the fill value `0`, otherwise raw values are preserved. Returns the windowed
array together with the sub-window's own transform. -/
def read (ra : RasterGrid) (w : PixelWindow) (fillInvalid : Bool) :
    List (List (List ℚ)) × Affine :=
  ((List.range ra.bands).map fun b =>
    (List.range w.rows).map fun (i : ℕ) =>
      (List.range w.cols).map fun (j : ℕ) =>
        let v := ra.data b (w.rowStart + (i : ℤ)).toNat (w.colStart + (j : ℤ)).toNat
        if fillInvalid then (if v = ra.nodata then 0 else v) else v,
   windowTransform ra.transform w)

/-- A time-stamped raster reference as used by the temporal aligner: a tile
identifier and the acquisition start time (`time_range[0]`), in days. -/
structure TimedRaster where
  tile : ℕ
  start : ℤ
  deriving DecidableEq, Repr

/-- One step of the stable sort underlying Python's `sorted(l, key=key)`:
insert `x` before the first element whose key is not smaller. -/
def keyInsert {α : Type} (key : α → ℤ) (x : α) : List α → List α
  | [] => [x]
  | y :: ys => if key x ≤ key y then x :: y :: ys else y :: keyInsert key x ys

/-- Stable sort by an integer key, the embedding of Python's
`sorted(l, key=key)` (Timsort is stable; any stable sort by the same key
produces the same sequence). -/
def pySorted {α : Type} (key : α → ℤ) : List α → List α
  | [] => []
  | x :: xs => keyInsert key x (pySorted key xs)

/-- Source: `sorted(s1_run.output\x7b"s1_raster"\x7d, key=lambda x: x.time_range[0])`
(notebook cell 38). Sorts a collection by acquisition start time. -/
def sort_by_time (c : List TimedRaster) : List TimedRaster :=
  pySorted (fun x => x.start) c

/-- Source: `sorted(se_run.output\x7b"raster"\x7d, key=lambda x:
abs(s2.time_range[0] - x.time_range[0]))[0]` (notebook cells 46 and 49).
Returns the collection entry nearest in time to the reference time; taking
the head of the sorted list fails on an empty collection, the
`EmptyCollection` kind of the error taxonomy. -/
def nearest (t : ℤ) (c : List TimedRaster) : Except CoreError TimedRaster :=
  match pySorted (fun x => |t - x.start|) c with
  | [] => Except.error CoreError.EmptyCollection
  | x :: _ => Except.ok x

/-- Source: `read_raster(c, geom, filled=False)[0].mean()` (notebook cell
19): the cloud ratio is the arithmetic mean of the mask values over the
windowed region, here over the flattened list of mask pixels. -/
def cloud_ratio (mask : List ℚ) : ℚ := mask.sum / mask.length

/-- Usability bucket of an acquisition. -/
inductive Usability where
  | usable
  | unusable
  deriving DecidableEq, Repr

/-- Source: `cloud_free_rasters = [s2 for s2, c in zip(...) if c < cloud_thr]`
and `cloudy_rasters = [... if c >= cloud_thr]` (notebook cell 19): an
acquisition is usable exactly when its cloud ratio is strictly below the
threshold. -/
def classify (ratio threshold : ℚ) : Usability :=
  if ratio < threshold then Usability.usable else Usability.unusable

/-- Example transform of the spec's end-to-end scenario: an 11000x11000 tile
with 10-meter pixels, north-up, upper-left corner at (499000, 9940000). -/
def tEx : Affine := ⟨10, -10, 499000, 9940000⟩

/-- Example envelope (500000, 9930000)-(501000, 9931000) of the scenario. -/
def envEx : Envelope := ⟨500000, 501000, 9930000, 9931000⟩

/-- Pixel window the scenario envelope resolves to: 100x100 pixels. -/
def winEx : PixelWindow := ⟨900, 1000, 100, 200⟩

/-- An envelope entirely west of the example raster grid. -/
def envBad : Envelope := ⟨-100, -50, 0, 10⟩

/-- Example raster grid: two bands of zeros with nodata sentinel -1. -/
def rEx : RasterGrid := ⟨2, 10, 10, tEx, fun _ _ _ => 0, -1⟩

/-- Example 2x3 pixel window inside the example raster grid. -/
def wEx : PixelWindow := ⟨0, 2, 0, 3⟩

theorem resolve_window_ok_eq {env : Envelope} {t : Affine} {h w : ℕ}
    {W : PixelWindow} (hok : resolve_window env t h w = Except.ok W) :
    W.rowStart = max 0 ⌊fracRowMin env t⌋ ∧
    W.rowStop = min (h : ℤ) ⌈fracRowMax env t⌉ ∧
    W.colStart = max 0 ⌊fracColMin env t⌋ ∧
    W.colStop = min (w : ℤ) ⌈fracColMax env t⌉ ∧
    W.rowStart < W.rowStop ∧ W.colStart < W.colStop := by
  simp only [resolve_window] at hok
  split at hok
  · rename_i hcond
    cases hok
    exact ⟨rfl, rfl, rfl, rfl, hcond.1, hcond.2⟩
  · cases hok

theorem resolve_window_ok_bounds {env : Envelope} {t : Affine} {h w : ℕ}
    {W : PixelWindow} (hok : resolve_window env t h w = Except.ok W) :
    0 ≤ W.rowStart ∧ W.rowStart < W.rowStop ∧ W.rowStop ≤ (h : ℤ) ∧
    0 ≤ W.colStart ∧ W.colStart < W.colStop ∧ W.colStop ≤ (w : ℤ) := by
  obtain ⟨h1, h2, h3, h4, h5, h6⟩ := resolve_window_ok_eq hok
  refine ⟨?_, h5, ?_, ?_, h6, ?_⟩
  · rw [h1]; exact le_max_left _ _
  · rw [h2]; exact min_le_left _ _
  · rw [h3]; exact le_max_left _ _
  · rw [h4]; exact min_le_left _ _

section SortLemmas

variable {α : Type} (key : α → ℤ)

theorem keyInsert_perm (x : α) (l : List α) :
    List.Perm (keyInsert key x l) (x :: l) := by
  induction l with
  | nil => simp [keyInsert]
  | cons y ys ih =>
    by_cases h : key x ≤ key y
    · simp [keyInsert, h]
    · simp only [keyInsert, if_neg h]
      exact (ih.cons y).trans (List.Perm.swap x y ys)

theorem pySorted_perm (l : List α) : List.Perm (pySorted key l) l := by
  induction l with
  | nil => simp [pySorted]
  | cons x xs ih =>
    exact (keyInsert_perm key x (pySorted key xs)).trans (ih.cons x)

theorem keyInsert_pairwise {x : α} {l : List α}
    (hl : l.Pairwise (fun a b => key a ≤ key b)) :
    (keyInsert key x l).Pairwise (fun a b => key a ≤ key b) := by
  induction l with
  | nil => simp [keyInsert]
  | cons y ys ih =>
    rcases List.pairwise_cons.mp hl with ⟨hy, hys⟩
    by_cases h : key x ≤ key y
    · simp only [keyInsert, if_pos h]
      refine List.pairwise_cons.mpr ⟨?_, hl⟩
      intro z hz
      rcases List.mem_cons.mp hz with rfl | hz
      · exact h
      · exact le_trans h (hy z hz)
    · simp only [keyInsert, if_neg h]
      refine List.pairwise_cons.mpr ⟨?_, ih hys⟩
      intro z hz
      rcases List.mem_cons.mp ((keyInsert_perm key x ys).mem_iff.mp hz) with rfl | hz
      · exact le_of_lt (lt_of_not_le h)
      · exact hy z hz

theorem pySorted_pairwise (l : List α) :
    (pySorted key l).Pairwise (fun a b => key a ≤ key b) := by
  induction l with
  | nil => simp [pySorted]
  | cons x xs ih => exact keyInsert_pairwise key ih

theorem pySorted_head_min {l : List α} {x : α} {rest : List α}
    (h : pySorted key l = x :: rest) :
    ∀ y ∈ l, key x ≤ key y := by
  intro y hy
  have hmem : y ∈ x :: rest := h ▸ (pySorted_perm key l).symm.mem_iff.mp hy
  rcases List.mem_cons.mp hmem with rfl | htail
  · exact le_refl _
  · have hp := pySorted_pairwise key l
    rw [h] at hp
    exact (List.pairwise_cons.mp hp).1 y htail

theorem filter_keyInsert (k : ℤ) (x : α) (l : List α) :
    (keyInsert key x l).filter (fun y => decide (key y = k)) =
      if key x = k then x :: l.filter (fun y => decide (key y = k))
      else l.filter (fun y => decide (key y = k)) := by
  induction l with
  | nil => by_cases h : key x = k <;> simp [keyInsert, List.filter, h]
  | cons y ys ih =>
    by_cases h : key x ≤ key y
    · rw [keyInsert, if_pos h]
      by_cases hx : key x = k <;> by_cases hy : key y = k <;>
        simp [List.filter, hx, hy]
    · rw [keyInsert, if_neg h]
      have hyk : key y < key x := lt_of_not_le h
      by_cases hx : key x = k
      · have hy : ¬ (key y = k) := by omega
        simp [List.filter, hx, hy, ih]
      · by_cases hy : key y = k <;> simp [List.filter, hx, hy, ih]

theorem pySorted_filter (k : ℤ) (l : List α) :
    (pySorted key l).filter (fun y => decide (key y = k)) =
      l.filter (fun y => decide (key y = k)) := by
  induction l with
  | nil => simp [pySorted]
  | cons x xs ih =>
    by_cases hx : key x = k <;>
      simp [pySorted, filter_keyInsert, hx, ih, List.filter]

theorem pySorted_eq_of_pairwise {l : List α}
    (hl : l.Pairwise (fun a b => key a ≤ key b)) :
    pySorted key l = l := by
  induction l with
  | nil => simp [pySorted]
  | cons x xs ih =>
    rcases List.pairwise_cons.mp hl with ⟨hx, hxs⟩
    rw [pySorted, ih hxs]
    cases xs with
    | nil => simp [keyInsert]
    | cons y ys =>
      simp [keyInsert, if_pos (hx y (List.mem_cons_self y ys))]

theorem pySorted_idem (l : List α) :
    pySorted key (pySorted key l) = pySorted key l :=
  pySorted_eq_of_pairwise key (pySorted_pairwise key l)

end SortLemmas

theorem resolve_ok_example : resolve_window envEx tEx 11000 11000 = Except.ok winEx := by
  rw [resolve_window]
  norm_num [fracColMin, fracColMax, fracRowMin, fracRowMax, envEx, tEx, winEx]

/-- Claim C1: for every valid geometry and raster whose grid the projected
envelope intersects (window resolution succeeds), the resolved window's
bounds are the clamped floor of the envelope's lower fractional pixel
coordinates and ceiling of its upper ones, and every raster-grid pixel whose
cell overlaps the envelope's fractional-pixel rectangle lies inside the
window, so no pixel overlapping the envelope is excluded. -/
theorem resolve_window_covers_envelope
    (env : Envelope) (t : Affine) (h w : ℕ) (W : PixelWindow)
    (hok : resolve_window env t h w = Except.ok W) :
    (W.rowStart = max 0 ⌊fracRowMin env t⌋ ∧
     W.rowStop = min (h : ℤ) ⌈fracRowMax env t⌉ ∧
     W.colStart = max 0 ⌊fracColMin env t⌋ ∧
     W.colStop = min (w : ℤ) ⌈fracColMax env t⌉) ∧
    (∀ r c : ℤ, 0 ≤ r → r < (h : ℤ) → 0 ≤ c → c < (w : ℤ) →
      fracRowMin env t < (r : ℚ) + 1 → (r : ℚ) < fracRowMax env t →
      fracColMin env t < (c : ℚ) + 1 → (c : ℚ) < fracColMax env t →
      W.rowStart ≤ r ∧ r < W.rowStop ∧ W.colStart ≤ c ∧ c < W.colStop) := by
  obtain ⟨e1, e2, e3, e4, _, _⟩ := resolve_window_ok_eq hok
  refine ⟨⟨e1, e2, e3, e4⟩, ?_⟩
  intro r c hr0 hrh hc0 hcw hrmin hrmax hcmin hcmax
  have h1 : ⌊fracRowMin env t⌋ ≤ r := Int.floor_le_iff.mpr (by exact_mod_cast hrmin)
  have h2 : r < ⌈fracRowMax env t⌉ := Int.lt_ceil.mpr hrmax
  have h3 : ⌊fracColMin env t⌋ ≤ c := Int.floor_le_iff.mpr (by exact_mod_cast hcmin)
  have h4 : c < ⌈fracColMax env t⌉ := Int.lt_ceil.mpr hcmax
  refine ⟨?_, ?_, ?_, ?_⟩
  · rw [e1]; exact max_le hr0 h1
  · rw [e2]; exact lt_min hrh h2
  · rw [e3]; exact max_le hc0 h3
  · rw [e4]; exact lt_min hcw h4

theorem resolve_window_covers_envelope_witness :
    resolve_window envEx tEx 11000 11000 = Except.ok winEx ∧
    (winEx.rowStart ≤ 950 ∧ (950 : ℤ) < winEx.rowStop ∧
     winEx.colStart ≤ 150 ∧ (150 : ℤ) < winEx.colStop) := by
  refine ⟨resolve_ok_example,
    (resolve_window_covers_envelope envEx tEx 11000 11000 winEx
      resolve_ok_example).2 950 150 ?_ ?_ ?_ ?_ ?_ ?_ ?_ ?_⟩ <;>
    norm_num [fracRowMin, fracRowMax, fracColMin, fracColMax, envEx, tEx]

/-- Claim C7: `resolve_window` clamps the pixel rectangle to the raster's
dimensions — every window it returns satisfies
0 ≤ row-start < row-stop ≤ height and 0 ≤ col-start < col-stop ≤ width —
and when the clamped rectangle is empty it fails with the explicit
`OutOfBounds` error rather than returning an empty window. -/
theorem resolve_window_clamps_and_out_of_bounds (env : Envelope) (t : Affine)
    (h w : ℕ) :
    (∀ W : PixelWindow, resolve_window env t h w = Except.ok W →
      0 ≤ W.rowStart ∧ W.rowStart < W.rowStop ∧ W.rowStop ≤ (h : ℤ) ∧
      0 ≤ W.colStart ∧ W.colStart < W.colStop ∧ W.colStop ≤ (w : ℤ)) ∧
    (¬ (max 0 ⌊fracRowMin env t⌋ < min (h : ℤ) ⌈fracRowMax env t⌉ ∧
        max 0 ⌊fracColMin env t⌋ < min (w : ℤ) ⌈fracColMax env t⌉) →
      resolve_window env t h w = Except.error CoreError.OutOfBounds) := by
  refine ⟨fun W hok => resolve_window_ok_bounds hok, fun hempty => ?_⟩
  simp only [resolve_window]
  rw [if_neg hempty]

theorem resolve_window_clamps_and_out_of_bounds_witness :
    (0 ≤ winEx.rowStart ∧ winEx.rowStart < winEx.rowStop ∧
     winEx.rowStop ≤ (11000 : ℤ) ∧ 0 ≤ winEx.colStart ∧
     winEx.colStart < winEx.colStop ∧ winEx.colStop ≤ (11000 : ℤ)) ∧
    resolve_window envBad tEx 11000 11000 = Except.error CoreError.OutOfBounds := by
  refine ⟨(resolve_window_clamps_and_out_of_bounds envEx tEx 11000 11000).1
      winEx resolve_ok_example,
    (resolve_window_clamps_and_out_of_bounds envBad tEx 11000 11000).2 ?_⟩
  norm_num [fracColMin, fracColMax, fracRowMin, fracRowMax, envBad, tEx]

/-- Claim C8: `resolve_window` is idempotent — mapping a resolved window back
to its corresponding CRS envelope (through the affine transform) and
resolving that envelope against the same raster transform and size yields
the same window again. -/
theorem resolve_window_idempotent (env : Envelope) (t : Affine) (h w : ℕ)
    (W : PixelWindow) (ha : 0 < t.a) (he : t.e < 0)
    (hok : resolve_window env t h w = Except.ok W) :
    resolve_window (windowEnvelope W t) t h w = Except.ok W := by
  obtain ⟨hr0, hrlt, hrh, hc0, hclt, hcw⟩ := resolve_window_ok_bounds hok
  have h1 : fracRowMin (windowEnvelope W t) t = (W.rowStart : ℚ) := by
    rw [fracRowMin]
    show (t.f + W.rowStart * t.e - t.f) / t.e = _
    rw [add_sub_cancel_left, mul_div_cancel_right₀ _ he.ne]
  have h2 : fracRowMax (windowEnvelope W t) t = (W.rowStop : ℚ) := by
    rw [fracRowMax]
    show (t.f + W.rowStop * t.e - t.f) / t.e = _
    rw [add_sub_cancel_left, mul_div_cancel_right₀ _ he.ne]
  have h3 : fracColMin (windowEnvelope W t) t = (W.colStart : ℚ) := by
    rw [fracColMin]
    show (t.c + W.colStart * t.a - t.c) / t.a = _
    rw [add_sub_cancel_left, mul_div_cancel_right₀ _ ha.ne']
  have h4 : fracColMax (windowEnvelope W t) t = (W.colStop : ℚ) := by
    rw [fracColMax]
    show (t.c + W.colStop * t.a - t.c) / t.a = _
    rw [add_sub_cancel_left, mul_div_cancel_right₀ _ ha.ne']
  simp only [resolve_window, h1, h2, h3, h4, Int.floor_intCast, Int.ceil_intCast]
  rw [max_eq_right hr0, min_eq_right hrh, max_eq_right hc0, min_eq_right hcw,
    if_pos ⟨hrlt, hclt⟩]

theorem resolve_window_idempotent_witness :
    (0 : ℚ) < tEx.a ∧ tEx.e < 0 ∧
    resolve_window (windowEnvelope winEx tEx) tEx 11000 11000 = Except.ok winEx :=
  ⟨by norm_num [tEx], by norm_num [tEx],
    resolve_window_idempotent envEx tEx 11000 11000 winEx
      (by norm_num [tEx]) (by norm_num [tEx]) resolve_ok_example⟩

/-- Claim C5: for every raster and pixel window, `read` returns an array
whose shape is exactly (bands, window.rows, window.cols), paired with the
transform describing the sub-window's own geolocation (same pixel scale,
and sub-window pixel (i, j) maps to the same CRS coordinates as pixel
(rowStart + i, colStart + j) of the original raster). -/
theorem read_shape_and_transform (ra : RasterGrid) (w : PixelWindow)
    (fill : Bool) :
    (read ra w fill).1.length = ra.bands ∧
    (∀ band ∈ (read ra w fill).1, band.length = w.rows ∧
      ∀ row ∈ band, row.length = w.cols) ∧
    (read ra w fill).2 = windowTransform ra.transform w ∧
    (∀ j : ℤ, pixelX (windowTransform ra.transform w) j =
      pixelX ra.transform (w.colStart + j)) ∧
    (∀ i : ℤ, pixelY (windowTransform ra.transform w) i =
      pixelY ra.transform (w.rowStart + i)) := by
  refine ⟨by simp [read], ?_, rfl, ?_, ?_⟩
  · intro band hband
    simp only [read, List.mem_map, List.mem_range] at hband
    obtain ⟨b, hb, rfl⟩ := hband
    refine ⟨by simp, ?_⟩
    intro row hrow
    simp only [List.mem_map, List.mem_range] at hrow
    obtain ⟨i, hi, rfl⟩ := hrow
    simp
  · intro j
    simp only [pixelX, windowTransform]
    push_cast
    ring
  · intro i
    simp only [pixelY, windowTransform]
    push_cast
    ring

theorem read_shape_and_transform_witness :
    ([[(0 : ℚ), 0, 0], [0, 0, 0]] ∈ (read rEx wEx true).1 ∧
     ([[(0 : ℚ), 0, 0], [0, 0, 0]] : List (List ℚ)).length = wEx.rows) ∧
    ([(0 : ℚ), 0, 0] ∈ [[(0 : ℚ), 0, 0], [0, 0, 0]] ∧
     ([(0 : ℚ), 0, 0] : List ℚ).length = wEx.cols) := by
  have hb : [[(0 : ℚ), 0, 0], [0, 0, 0]] ∈ (read rEx wEx true).1 := by decide
  have hr : [(0 : ℚ), 0, 0] ∈ [[(0 : ℚ), 0, 0], [0, 0, 0]] := by decide
  have hshape := (read_shape_and_transform rEx wEx true).2.1 _ hb
  exact ⟨⟨hb, hshape.1⟩, ⟨hr, hshape.2 _ hr⟩⟩

/-- Claim C3: `cloud_ratio` is the arithmetic mean of the mask values, is
invariant under any permutation of the pixels, returns exactly 0 on an
all-valid mask, exactly 1 on a non-empty all-cloud mask, and a 100x100 mask
with exactly 5000 cloud pixels (value 1) yields ratio 1/2. -/
theorem cloud_ratio_mean_properties :
    (∀ m : List ℚ, cloud_ratio m = m.sum / m.length) ∧
    (∀ m m' : List ℚ, List.Perm m m' → cloud_ratio m = cloud_ratio m') ∧
    (∀ n : ℕ, cloud_ratio (List.replicate n (0 : ℚ)) = 0) ∧
    (∀ n : ℕ, 0 < n → cloud_ratio (List.replicate n (1 : ℚ)) = 1) ∧
    cloud_ratio (List.replicate 5000 (1 : ℚ) ++ List.replicate 5000 (0 : ℚ)) =
      1 / 2 := by
  refine ⟨fun m => rfl, ?_, ?_, ?_, ?_⟩
  · intro m m' hp
    rw [cloud_ratio, cloud_ratio, hp.sum_eq, hp.length_eq]
  · intro n
    simp [cloud_ratio]
  · intro n hn
    rw [cloud_ratio, List.sum_replicate, List.length_replicate, nsmul_eq_mul,
      mul_one, div_self (by exact_mod_cast hn.ne' : (n : ℚ) ≠ 0)]
  · rw [cloud_ratio, List.sum_append, List.sum_replicate, List.sum_replicate,
      List.length_append, List.length_replicate, List.length_replicate]
    norm_num

theorem cloud_ratio_mean_properties_witness :
    cloud_ratio [(0 : ℚ), 1] = cloud_ratio [1, 0] ∧
    cloud_ratio (List.replicate 3 (1 : ℚ)) = 1 :=
  ⟨cloud_ratio_mean_properties.2.1 [0, 1] [1, 0] (List.Perm.swap 1 0 []),
    cloud_ratio_mean_properties.2.2.2.1 3 (by norm_num)⟩

/-- Claim C4: `classify(ratio, threshold)` returns `usable` exactly when
`ratio < threshold` (strict inequality), returns `unusable` whenever
`ratio ≥ threshold`, and the boundary case `ratio = threshold` is always
classified `unusable`. -/
theorem classify_strict_threshold :
    ∀ ratio threshold : ℚ,
      (classify ratio threshold = Usability.usable ↔ ratio < threshold) ∧
      (threshold ≤ ratio → classify ratio threshold = Usability.unusable) ∧
      classify threshold threshold = Usability.unusable := by
  intro r t
  refine ⟨?_, ?_, ?_⟩
  · by_cases h : r < t <;> simp [classify, h]
  · intro h
    simp [classify, not_lt.mpr h]
  · simp [classify]

theorem classify_strict_threshold_witness :
    (1 : ℚ) / 10 ≤ 1 / 2 ∧ classify (1 / 2) (1 / 10) = Usability.unusable :=
  ⟨by norm_num, (classify_strict_threshold (1 / 2) (1 / 10)).2.1 (by norm_num)⟩

/-- Claim C2: for every non-empty collection and reference time `t`,
`nearest t collection` returns an element of the collection whose absolute
time difference to `t` is minimal over the whole collection; in particular,
for start times [2018-06-01, 2018-06-06, 2018-06-11] (days-of-year 152, 157,
162) and reference time 2018-06-08 (day 159), `nearest` returns the
2018-06-06 entry. -/
theorem nearest_minimizes_abs_diff :
    (∀ (t : ℤ) (c : List TimedRaster), c ≠ [] →
      ∃ x, nearest t c = Except.ok x ∧ x ∈ c ∧
        ∀ y ∈ c, |t - x.start| ≤ |t - y.start|) ∧
    nearest 159 [⟨1, 152⟩, ⟨2, 157⟩, ⟨3, 162⟩] = Except.ok ⟨2, 157⟩ := by
  refine ⟨?_, rfl⟩
  intro t c hc
  cases hs : pySorted (fun x => |t - x.start|) c with
  | nil =>
    exfalso
    have hlen := (pySorted_perm (fun x => |t - x.start|) c).length_eq
    rw [hs] at hlen
    exact hc (List.length_eq_zero.mp hlen.symm)
  | cons x rest =>
    have hmem : x ∈ pySorted (fun y => |t - y.start|) c := by
      rw [hs]; exact List.mem_cons_self x rest
    refine ⟨x, ?_, (pySorted_perm _ c).mem_iff.mp hmem, pySorted_head_min _ hs⟩
    unfold nearest
    rw [hs]

theorem nearest_minimizes_abs_diff_witness :
    ([⟨1, 152⟩, ⟨2, 157⟩, ⟨3, 162⟩] : List TimedRaster) ≠ [] ∧
    ∃ x, nearest 159 [⟨1, 152⟩, ⟨2, 157⟩, ⟨3, 162⟩] = Except.ok x ∧
      x ∈ ([⟨1, 152⟩, ⟨2, 157⟩, ⟨3, 162⟩] : List TimedRaster) ∧
      ∀ y ∈ ([⟨1, 152⟩, ⟨2, 157⟩, ⟨3, 162⟩] : List TimedRaster),
        |159 - x.start| ≤ |159 - y.start| :=
  ⟨by simp, nearest_minimizes_abs_diff.1 159 _ (by simp)⟩

/-- Claim C6: for every reference time `t`, `nearest` applied to an empty
collection fails with the explicit error `EmptyCollection`, reported to the
immediate caller. -/
theorem nearest_empty_collection_error :
    ∀ t : ℤ, nearest t [] = Except.error CoreError.EmptyCollection :=
  fun _ => rfl

/-- Claim C10: when two or more entries are equidistant in time from `t`,
`nearest` returns the equidistant entry appearing earliest in the input
order: the returned entry minimizes the absolute difference, and it is the
head of the input's sublist of entries attaining that same difference. -/
theorem nearest_tie_prefers_earliest :
    ∀ (t : ℤ) (c : List TimedRaster) (x : TimedRaster),
      nearest t c = Except.ok x →
      (∀ y ∈ c, |t - x.start| ≤ |t - y.start|) ∧
      (c.filter fun y => decide (|t - y.start| = |t - x.start|)).head? =
        some x := by
  intro t c x hok
  unfold nearest at hok
  cases hs : pySorted (fun y => |t - y.start|) c with
  | nil => rw [hs] at hok; cases hok
  | cons z rest =>
    rw [hs] at hok
    cases hok
    refine ⟨pySorted_head_min _ hs, ?_⟩
    have hfilt := pySorted_filter (fun y => |t - y.start|) (|t - x.start|) c
    rw [← hfilt, hs]
    simp [List.filter]

theorem nearest_tie_prefers_earliest_witness :
    nearest 8 [⟨1, 5⟩, ⟨2, 11⟩] = Except.ok ⟨1, 5⟩ ∧
    (([⟨1, 5⟩, ⟨2, 11⟩] : List TimedRaster).filter fun y =>
        decide (|8 - y.start| = |8 - (⟨1, 5⟩ : TimedRaster).start|)).head? =
      some ⟨1, 5⟩ :=
  ⟨rfl, (nearest_tie_prefers_earliest 8 [⟨1, 5⟩, ⟨2, 11⟩] ⟨1, 5⟩ rfl).2⟩

/-- Claim C9: `sort_by_time` returns a permutation of the collection ordered
by acquisition start time, rasters sharing an identical start time keep
their relative input order (stable, no dedup), and applying `sort_by_time`
twice yields the same sequence as applying it once. -/
theorem sort_by_time_stable_permutation :
    ∀ c : List TimedRaster,
      List.Perm (sort_by_time c) c ∧
      (sort_by_time c).Pairwise (fun a b => a.start ≤ b.start) ∧
      (∀ s : ℤ, ((sort_by_time c).filter fun x => decide (x.start = s)) =
        c.filter fun x => decide (x.start = s)) ∧
      sort_by_time (sort_by_time c) = sort_by_time c := by
  intro c
  exact ⟨pySorted_perm _ c, pySorted_pairwise _ c,
    fun s => pySorted_filter _ s c, pySorted_idem _ c⟩

end FarmVibes
